import Mathlib

/-!
A shallow embedding of the `nw` net-worth tracker's core (the `compute.rs` and
`store.rs` modules plus the data model of `model.rs`), together with theorems
settling the specification claims about it.

Modelling conventions:
* Rust `f64` values are embedded as exact rationals (`Rat`).  Every claim under
  scrutiny is about the algebraic structure of the computations (identities,
  error propagation, ordering, aggregation), not about rounding, so the exact
  idealization is faithful; where IEEE-754 finiteness matters (division by a
  zero rate) it is modelled explicitly.
* `std::collections::HashMap` values are embedded as association lists whose
  lookup returns the first matching key; building a map by repeated insertion
  (`collect`) is embedded as a fold in which a later binding overwrites an
  earlier one, matching `HashMap` semantics.
* Rust's byte-wise `str` ordering is embedded as lexicographic comparison of
  the code-point sequences (`chars_le` below); on UTF-8 encoded strings the
  byte-wise and code-point-wise lexicographic orders coincide.
* `Result<T, NwError>` is embedded as `Except NwError T`; the `?` operator is
  explicit error propagation.
-/

namespace Nw

/-- Error type embedding `error.rs`: only the payloads the core consults are
kept (every payload is a `String`; the `std::io::Error` / `serde_json::Error`
sources carried by the I/O variants are opaque to the core and dropped). -/
inductive NwError where
  | DuplicateAssetId (id : String)
  | AssetNotFound (id : String)
  | SnapshotAlreadyExists (date : String)
  | SnapshotNotFound (date : String)
  | UsdRateRejected
  | InvalidDate (s : String)
  | InvalidHistoryRange (s : String)
  | ReadFile (path : String)
  | WriteFile (path : String)
  | MalformedJson (path : String)
  | SerializeJson (path : String)
  | NoConfigDir
  | RateMissing (currency : String)
deriving DecidableEq, Repr

/-- Embedding of `model.rs::Asset`. -/
structure Asset where
  id : String
  name : String
  category : String
  currency : String
deriving DecidableEq, Repr

/-- Embedding of `model.rs::SnapshotEntry`. -/
structure SnapshotEntry where
  asset_id : String
  value : Rat
deriving DecidableEq, Repr

/-- Embedding of `model.rs::Snapshot`; the `rates: HashMap<String, f64>` is an
association list (first-match lookup). -/
structure Snapshot where
  date : String
  rates : List (String × Rat)
  entries : List SnapshotEntry
deriving DecidableEq, Repr

/-- Embedding of `model.rs::Portfolio`. -/
structure Portfolio where
  assets : List Asset
  snapshots : List Snapshot
deriving DecidableEq, Repr

/-- Embedding of `model.rs::ShowRow`. -/
structure ShowRow where
  asset_name : String
  currency : String
  native_value : Rat
  usd_value : Rat
  category : String
deriving DecidableEq, Repr

/-- Embedding of `model.rs::HistoryRow`. -/
structure HistoryRow where
  date : String
  total_usd : Rat
  change_usd : Option Rat
  change_pct : Option Rat
deriving DecidableEq, Repr

/-- Embedding of `model.rs::HistoryRange`. -/
inductive HistoryRange where
  | OneMonth
  | SixMonths
  | OneYear
  | FiveYears
  | All
deriving DecidableEq, Repr

/-- Embedding of `HashMap::get` on the rate map: first matching key. -/
def rates_get (rates : List (String × Rat)) (currency : String) : Option Rat :=
  List.lookup currency rates

/-- Embedding of `compute.rs::to_usd`.  USD is the identity; otherwise the rate
is looked up and the value divided by it, `RateMissing` if absent. -/
def to_usd (value : Rat) (currency : String) (rates : List (String × Rat)) :
    Except NwError Rat :=
  if currency = "USD" then
    .ok value
  else
    match rates_get rates currency with
    | some rate => .ok (value / rate)
    | none => .error (NwError.RateMissing currency)

/-- IEEE-754 classification of an `f64` quotient of finite operands (`/` is a
language primitive, not repository code, so this classifier is modelled from
IEEE-754 semantics directly): a finite dividend divided by zero is `±inf`
(or NaN for `0/0`), hence non-finite; a quotient by a nonzero finite divisor
is finite under the exact-rational idealization (overflow idealized away). -/
def div_result_is_finite (_dividend rate : Rat) : Bool :=
  rate != 0

/-- Embedding of the `HashMap<&str, &Asset>` built by `collect()` in
`compute_show_rows`: iterating `portfolio.assets` and inserting each under its
id, a later duplicate id overwriting an earlier one; `asset_lookup` is lookup
in that finished map. -/
def asset_lookup (assets : List Asset) (id : String) : Option Asset :=
  assets.foldl (fun acc a => if a.id = id then some a else acc) none

/-- Embedding of the category-filter guard in the `compute_show_rows` loop:
`if let Some(filter) = category_filter { if asset.category != filter { continue; } }`.
Returns `true` when the entry is kept. -/
def category_passes (category_filter : Option String) (asset : Asset) : Bool :=
  match category_filter with
  | some f => asset.category = f
  | none => true

/-- The loop of `compute_show_rows`: walks the entries carrying the running
`grand_total` and the `rows` vector; `rows ++ [row]` embeds `rows.push(row)`. -/
def show_go (assets : List Asset) (rates : List (String × Rat))
    (category_filter : Option String) :
    List SnapshotEntry → Rat → List ShowRow → Except NwError (Rat × List ShowRow)
  | [], grand_total, rows => .ok (grand_total, rows)
  | entry :: rest, grand_total, rows =>
    match asset_lookup assets entry.asset_id with
    | none => show_go assets rates category_filter rest grand_total rows
    | some asset =>
      if category_passes category_filter asset then
        match to_usd entry.value asset.currency rates with
        | .error e => .error e
        | .ok usd_value =>
          show_go assets rates category_filter rest (grand_total + usd_value)
            (rows ++ [{ asset_name := asset.name, currency := asset.currency,
                        native_value := entry.value, usd_value := usd_value,
                        category := asset.category }])
      else
        show_go assets rates category_filter rest grand_total rows

/-- Embedding of `compute.rs::compute_show_rows`. -/
def compute_show_rows (snapshot : Snapshot) (portfolio : Portfolio)
    (category_filter : Option String) : Except NwError (Rat × List ShowRow) :=
  show_go portfolio.assets snapshot.rates category_filter snapshot.entries 0 []

/-- Byte-wise lexicographic `≤` on code-point lists, embedding Rust's `str`
ordering (`<=`/`>=`/`cmp` on `&str`). -/
def chars_le : List Char → List Char → Bool
  | [], _ => true
  | _ :: _, [] => false
  | a :: as, b :: bs =>
    if a.toNat < b.toNat then true
    else if b.toNat < a.toNat then false
    else chars_le as bs

/-- Byte-wise lexicographic `≤` on strings (Rust `&str` ordering). -/
def str_le (a b : String) : Bool :=
  chars_le a.data b.data

/-- Embedding of `compute.rs::compute_allocation`: percentage per category,
stably sorted by the comparator `b.1.partial_cmp(&a.1).unwrap_or(Equal)`, i.e.
descending by percentage (over exact rationals the comparison is total, so the
`unwrap_or(Equal)` NaN fallback is never exercised). -/
def compute_allocation (category_totals : List (String × Rat))
    (grand_total : Rat) : List (String × Rat) :=
  if grand_total = 0 then
    []
  else
    (category_totals.map (fun p => (p.1, p.2 / grand_total * 100))).mergeSort
      (fun a b => decide (b.2 ≤ a.2))

/-- Embedding of `compute.rs::compute_change`. -/
def compute_change (prev current : Rat) : Rat × Rat :=
  let change_usd := current - prev
  let change_pct := if prev = 0 then 0 else (change_usd / prev) * 100
  (change_usd, change_pct)

/-- Embedding of `compute.rs::snapshot_total_usd`. -/
def snapshot_total_usd (snapshot : Snapshot) (portfolio : Portfolio) :
    Except NwError Rat :=
  match compute_show_rows snapshot portfolio none with
  | .ok (total, _) => .ok total
  | .error e => .error e

/-- The loop of `compute_history_rows`: carries `prev_total` and the `rows`
vector; `rows ++ [row]` embeds `rows.push(row)`. -/
def history_go (portfolio : Portfolio) :
    List Snapshot → Option Rat → List HistoryRow → Except NwError (List HistoryRow)
  | [], _, rows => .ok rows
  | snapshot :: rest, prev_total, rows =>
    match snapshot_total_usd snapshot portfolio with
    | .error e => .error e
    | .ok total_usd =>
      let cc :=
        match prev_total with
        | some prev => (some (compute_change prev total_usd).1,
                        some (compute_change prev total_usd).2)
        | none => (none, none)
      history_go portfolio rest (some total_usd)
        (rows ++ [{ date := snapshot.date, total_usd := total_usd,
                    change_usd := cc.1, change_pct := cc.2 }])

/-- Embedding of `compute.rs::compute_history_rows`. -/
def compute_history_rows (snapshots : List Snapshot) (portfolio : Portfolio) :
    Except NwError (List HistoryRow) :=
  history_go portfolio snapshots none []

/-- Embedding of chrono's `NaiveDate` as used by `compute.rs`: a plain
year/month/day triple. -/
structure Date where
  year : Int
  month : Nat
  day : Nat
deriving DecidableEq, Repr

/-- Embedding of the leap-year test inside `compute.rs::days_in_month`
(`year % 400 == 0 || (year % 4 == 0 && year % 100 != 0)`; Rust's truncated `%`
and Lean's Euclidean `%` agree on the `== 0` tests, both meaning divisibility). -/
def is_leap (year : Int) : Bool :=
  year % 400 = 0 ∨ (year % 4 = 0 ∧ year % 100 ≠ 0)

/-- Embedding of `compute.rs::days_in_month`. -/
def days_in_month (year : Int) (month : Nat) : Nat :=
  match month with
  | 1 | 3 | 5 | 7 | 8 | 10 | 12 => 31
  | 4 | 6 | 9 | 11 => 30
  | 2 => if is_leap year then 29 else 28
  | _ => 30

/-- Modelled from chrono's `NaiveDate::from_ymd_opt` (library code, not in the
repository): succeeds exactly on valid proleptic-Gregorian calendar dates
(month 1–12, day 1 to the month's length; chrono's ±262143 year bound is
idealized away, the program only handles modern dates). -/
def from_ymd_opt (year : Int) (month day : Nat) : Option Date :=
  if 1 ≤ month ∧ month ≤ 12 ∧ 1 ≤ day ∧ day ≤ days_in_month year month then
    some { year := year, month := month, day := day }
  else
    none

/-- A date triple is a valid calendar date when `from_ymd_opt` accepts it. -/
def date_valid (d : Date) : Bool :=
  (from_ymd_opt d.year d.month d.day).isSome

/-- The `while month <= 0 { month += 12; year -= 1; }` loop of
`compute.rs::subtract_months`. -/
def norm_ym (year month : Int) : Int × Int :=
  if month ≤ 0 then norm_ym (year - 1) (month + 12) else (year, month)
termination_by (1 - month).toNat
decreasing_by omega

/-- Embedding of `compute.rs::subtract_months`: roll the month counter back,
clamp the day to the destination month's length; the nested match embeds the
`unwrap_or_else`/`expect` fallback chain (the `expect` branch is unreachable
and modelled by the literal triple). -/
def subtract_months (date : Date) (months : Nat) : Date :=
  let ym := norm_ym date.year ((date.month : Int) - (months : Int))
  let month := ym.2.toNat
  let day := min date.day (days_in_month ym.1 month)
  match from_ymd_opt ym.1 month day with
  | some d => d
  | none =>
    match from_ymd_opt ym.1 month 1 with
    | some d => d
    | none => { year := ym.1, month := month, day := 1 }

/-- Embedding of `compute.rs::subtract_years` (same fallback chain as
`subtract_months`). -/
def subtract_years (date : Date) (years : Int) : Date :=
  let year := date.year - years
  let day := min date.day (days_in_month year date.month)
  match from_ymd_opt year date.month day with
  | some d => d
  | none =>
    match from_ymd_opt year date.month 1 with
    | some d => d
    | none => { year := year, month := date.month, day := 1 }

/-- Numeric value of an ASCII digit character. -/
def digit_val (c : Char) : Nat :=
  c.toNat - 48

/-- Modelled from chrono's `NaiveDate::parse_from_str` with format
`"%Y-%m-%d"` (the parser is library code, not in the repository): accepts the
zero-padded ISO-8601 form the program itself produces — four year digits, two
month digits, two day digits, `-` separators — and validates the triple as a
calendar date via `from_ymd_opt`. -/
def parse_date (s : String) : Option Date :=
  match s.data with
  | [y1, y2, y3, y4, h1, m1, m2, h2, d1, d2] =>
    if h1 = '-' ∧ h2 = '-' ∧ y1.isDigit ∧ y2.isDigit ∧ y3.isDigit ∧
        y4.isDigit ∧ m1.isDigit ∧ m2.isDigit ∧ d1.isDigit ∧ d2.isDigit then
      from_ymd_opt
        (Int.ofNat (digit_val y1 * 1000 + digit_val y2 * 100 +
          digit_val y3 * 10 + digit_val y4))
        (digit_val m1 * 10 + digit_val m2)
        (digit_val d1 * 10 + digit_val d2)
    else
      none
  | _ => none

/-- ASCII digit character for a value below 10. -/
def digit_char (n : Nat) : Char :=
  Char.ofNat (48 + n)

/-- Modelled from chrono's `format("%Y-%m-%d")` (library code, not in the
repository): zero-padded ISO-8601 rendering, for the nonnegative year range
the program exercises. -/
def format_date (d : Date) : String :=
  let y := d.year.toNat
  String.mk [digit_char (y / 1000 % 10), digit_char (y / 100 % 10),
    digit_char (y / 10 % 10), digit_char (y % 10), '-',
    digit_char (d.month / 10 % 10), digit_char (d.month % 10), '-',
    digit_char (d.day / 10 % 10), digit_char (d.day % 10)]

/-- The cutoff computation of `compute.rs::filter_by_range` (the `All` arm is
the source's `unreachable!()`: `filter_by_range` returns before matching on
`All`, so that arm's value is never consulted). -/
def range_cutoff (range : HistoryRange) (today_date : Date) : Date :=
  match range with
  | .OneMonth => subtract_months today_date 1
  | .SixMonths => subtract_months today_date 6
  | .OneYear => subtract_years today_date 1
  | .FiveYears => subtract_years today_date 5
  | .All => today_date

/-- Embedding of `compute.rs::filter_by_range`. -/
def filter_by_range (snapshots : List Snapshot) (range : HistoryRange)
    (today : String) : List Snapshot :=
  if range = HistoryRange.All then
    snapshots
  else
    match parse_date today with
    | none => snapshots
    | some today_date =>
      let cutoff_str := format_date (range_cutoff range today_date)
      snapshots.filter (fun s => str_le cutoff_str s.date)

/-- Filesystem state for the `store.rs` embedding: a mapping from path strings
to stored portfolio documents.  Serialization is idealized: the file holds the
document value itself (`serde_json` round-trips faithfully and is library
code, not in the repository). -/
structure FileSystem where
  files : List (String × Portfolio)
deriving DecidableEq

/-- Contents at a path (first matching binding). -/
def fs_read (fs : FileSystem) (path : String) : Option Portfolio :=
  List.lookup path fs.files

/-- Whole-file write: creates or replaces the file at `path`. -/
def fs_write (fs : FileSystem) (path : String) (doc : Portfolio) : FileSystem :=
  { files := (path, doc) :: fs.files }

/-- Removes every binding for `path`. -/
def fs_erase (fs : FileSystem) (path : String) : FileSystem :=
  { files := fs.files.filter (fun e => e.1 ≠ path) }

/-- Embedding of `fs::rename`: fails when the source is absent, otherwise
atomically moves its contents over the destination. -/
def fs_rename (fs : FileSystem) (src dst : String) : Option FileSystem :=
  match fs_read fs src with
  | none => none
  | some doc => some (fs_write (fs_erase fs src) dst doc)

/-- Embedding of `store.rs::portfolio_path` for a resolved config directory. -/
def portfolio_path (config_dir : String) : String :=
  config_dir ++ "/nw-tracker/portfolio.json"

/-- Embedding of `path.with_extension("json.tmp")`: on a path whose extension
is already `json` (as `portfolio_path` always is) this replaces `json` with
`json.tmp`, i.e. appends `.tmp`. -/
def tmp_path (path : String) : String :=
  path ++ ".tmp"

/-- The `portfolio.snapshots.sort_by(|a, b| a.date.cmp(&b.date))` step of
`save_portfolio`: Rust's stable sort embedded as a stable merge sort under the
byte-wise string order on dates. -/
def sort_snapshots (snapshots : List Snapshot) : List Snapshot :=
  snapshots.mergeSort (fun a b => str_le a.date b.date)

/-- The filesystem state of `store.rs::save_portfolio` after the sort,
directory creation and temp-file write but before the rename (`create_dir_all`
touches only directories, so it does not change any file contents). -/
def save_pre_rename (config_dir : String) (fs : FileSystem)
    (portfolio : Portfolio) : FileSystem :=
  fs_write fs (tmp_path (portfolio_path config_dir))
    { portfolio with snapshots := sort_snapshots portfolio.snapshots }

/-- Embedding of `store.rs::save_portfolio`: sort the snapshots in place,
write the document to the temporary sibling path, rename it over the final
path.  Returns the filesystem after the rename together with the mutated
(`&mut`) portfolio; a failed rename leaves the post-write state (`getD`). -/
def save_portfolio (config_dir : String) (fs : FileSystem)
    (portfolio : Portfolio) : FileSystem × Portfolio :=
  let path := portfolio_path config_dir
  let fs1 := save_pre_rename config_dir fs portfolio
  ((fs_rename fs1 (tmp_path path) path).getD fs1,
   { portfolio with snapshots := sort_snapshots portfolio.snapshots })

/-- Embedding of `store.rs::load_portfolio`: a missing file yields the default
(empty) portfolio; read and parse failures are I/O conditions outside the
functional model. -/
def load_portfolio (config_dir : String) (fs : FileSystem) : Portfolio :=
  match fs_read fs (portfolio_path config_dir) with
  | some doc => doc
  | none => { assets := [], snapshots := [] }

/-- One iteration of the `compute_show_rows` loop, as a function from an entry
to the row it contributes: `none` when the entry is skipped (unresolved
`asset_id` or filtered-out category) or when its conversion fails. -/
def row_of_entry (assets : List Asset) (rates : List (String × Rat))
    (category_filter : Option String) (entry : SnapshotEntry) : Option ShowRow :=
  match asset_lookup assets entry.asset_id with
  | none => none
  | some asset =>
    if category_passes category_filter asset then
      match to_usd entry.value asset.currency rates with
      | .ok usd_value =>
        some { asset_name := asset.name, currency := asset.currency,
               native_value := entry.value, usd_value := usd_value,
               category := asset.category }
      | .error _ => none
    else
      none

/-- Linking predicate on history rows, relative to the carried previous total:
with no predecessor the row's change fields are absent; with predecessor total
`p` they are the difference and the percentage (zero when `p` is zero); each
row then becomes the predecessor of the next. -/
def history_rows_linked : Option Rat → List HistoryRow → Prop
  | _, [] => True
  | none, r :: rest =>
    (r.change_usd = none ∧ r.change_pct = none) ∧
    history_rows_linked (some r.total_usd) rest
  | some p, r :: rest =>
    (r.change_usd = some (r.total_usd - p) ∧
     r.change_pct = some (if p = 0 then 0 else ((r.total_usd - p) / p) * 100)) ∧
    history_rows_linked (some r.total_usd) rest

section Lemmas

/-- Unfolding a successful `show_go` run: the final rows are the accumulator
followed by one row per contributing entry in entry order, and the final total
is the accumulator plus the sum of the contributed USD values. -/
theorem show_go_ok_eq (assets : List Asset) (rates : List (String × Rat))
    (category_filter : Option String) :
    ∀ (entries : List SnapshotEntry) (total : Rat) (rows : List ShowRow)
      (T : Rat) (R : List ShowRow),
      show_go assets rates category_filter entries total rows = .ok (T, R) →
      R = rows ++ entries.filterMap (row_of_entry assets rates category_filter) ∧
      T = total + ((entries.filterMap
        (row_of_entry assets rates category_filter)).map ShowRow.usd_value).sum := by
  intro entries
  induction entries with
  | nil =>
    intro total rows T R h
    simp only [show_go, Except.ok.injEq, Prod.mk.injEq] at h
    simp [h.1, h.2]
  | cons e rest ih =>
    intro total rows T R h
    simp only [show_go] at h
    split at h
    · rename_i ha
      have hr := ih total rows T R h
      simp [row_of_entry, ha, hr.1, hr.2]
    · rename_i asset ha
      split at h
      · rename_i hp
        split at h
        · exact Except.noConfusion h
        · rename_i u hu
          have hr := ih _ _ T R h
          rw [hr.1, hr.2]
          simp [row_of_entry, ha, hp, hu, add_assoc]
      · rename_i hp
        have hr := ih total rows T R h
        simp [row_of_entry, ha, hp, hr.1, hr.2]

/-- A successful `show_go` run implies every entry that resolves and passes the
filter converted successfully (a missing rate would have aborted the run). -/
theorem show_go_ok_converts (assets : List Asset) (rates : List (String × Rat))
    (category_filter : Option String) :
    ∀ (entries : List SnapshotEntry) (total : Rat) (rows : List ShowRow)
      (out : Rat × List ShowRow),
      show_go assets rates category_filter entries total rows = .ok out →
      ∀ e ∈ entries, ∀ a, asset_lookup assets e.asset_id = some a →
        category_passes category_filter a = true →
        ∃ u, to_usd e.value a.currency rates = .ok u := by
  intro entries
  induction entries with
  | nil => intro _ _ _ _ e he; simp at he
  | cons e rest ih =>
    intro total rows out h e2 he2 a hla hpa
    simp only [show_go] at h
    rcases List.mem_cons.mp he2 with he | he
    · subst he
      split at h
      · rename_i ha
        rw [hla] at ha
        exact Option.noConfusion ha
      · rename_i asset ha
        have haa := Option.some.inj (hla.symm.trans ha)
        subst haa
        split at h
        · rename_i hp
          split at h
          · exact Except.noConfusion h
          · rename_i u hu
            exact ⟨u, hu⟩
        · rename_i hp
          exact absurd hpa hp
    · split at h
      · rename_i ha
        exact ih total rows out h e2 he a hla hpa
      · rename_i asset ha
        split at h
        · rename_i hp
          split at h
          · exact Except.noConfusion h
          · rename_i u hu
            exact ih _ _ out h e2 he a hla hpa
        · rename_i hp
          exact ih total rows out h e2 he a hla hpa

/-- A successful `history_go` run implies every snapshot's total computed
successfully. -/
theorem history_go_ok_totals (port : Portfolio) :
    ∀ (snaps : List Snapshot) (prev : Option Rat) (acc rows : List HistoryRow),
      history_go port snaps prev acc = .ok rows →
      ∀ s ∈ snaps, ∃ t, snapshot_total_usd s port = .ok t := by
  intro snaps
  induction snaps with
  | nil => intro _ _ _ _ s hs; simp at hs
  | cons s0 rest ih =>
    intro prev acc rows h s hs
    simp only [history_go] at h
    rcases ht : snapshot_total_usd s0 port with t | t
    · rw [ht] at h
      exact Except.noConfusion h
    · rw [ht] at h
      rcases List.mem_cons.mp hs with hs2 | hs2
      · exact hs2 ▸ ⟨t, ht⟩
      · exact ih _ _ rows h s hs2

/-- Unfolding a successful `history_go` run: the result extends the
accumulator by rows linked to the carried previous total, one per snapshot. -/
theorem history_go_ok_linked (port : Portfolio) :
    ∀ (snaps : List Snapshot) (prev : Option Rat) (acc rows : List HistoryRow),
      history_go port snaps prev acc = .ok rows →
      ∃ tail, rows = acc ++ tail ∧ tail.length = snaps.length ∧
        history_rows_linked prev tail := by
  intro snaps
  induction snaps with
  | nil =>
    intro prev acc rows h
    simp only [history_go, Except.ok.injEq] at h
    refine ⟨[], ?_, rfl, ?_⟩
    · simp [h]
    · rcases prev with _ | p <;> trivial
  | cons s0 rest ih =>
    intro prev acc rows h
    simp only [history_go] at h
    rcases ht : snapshot_total_usd s0 port with t | t
    · rw [ht] at h
      exact Except.noConfusion h
    · rw [ht] at h
      rcases prev with _ | p
      · rcases ih (some t)
            (acc ++ [{ date := s0.date, total_usd := t,
                       change_usd := none, change_pct := none }]) rows h with
          ⟨tail, htail, hlen, hlink⟩
        refine ⟨{ date := s0.date, total_usd := t,
                  change_usd := none, change_pct := none } :: tail, ?_, ?_, ?_⟩
        · rw [htail]
          simp
        · simp [hlen]
        · exact ⟨⟨rfl, rfl⟩, hlink⟩
      · rcases ih (some t)
            (acc ++ [{ date := s0.date, total_usd := t,
                       change_usd := some (compute_change p t).1,
                       change_pct := some (compute_change p t).2 }]) rows h with
          ⟨tail, htail, hlen, hlink⟩
        refine ⟨{ date := s0.date, total_usd := t,
                  change_usd := some (compute_change p t).1,
                  change_pct := some (compute_change p t).2 } :: tail, ?_, ?_, ?_⟩
        · rw [htail]
          simp
        · simp [hlen]
        · exact ⟨⟨rfl, rfl⟩, hlink⟩

end Lemmas

/-- Claim C1: `to_usd` is the identity on USD regardless of the rate map, and
for any other currency present in the map with rate `r` it returns
`Ok(value / r)`. -/
theorem to_usd_usd_identity_and_division (v : Rat) (R : List (String × Rat)) :
    to_usd v "USD" R = .ok v ∧
    ∀ c r, c ≠ "USD" → rates_get R c = some r → to_usd v c R = .ok (v / r) := by
  refine ⟨by simp [to_usd], ?_⟩
  intro c r hc hr
  simp [to_usd, hc, hr]

/-- Witness for C1 at concrete inputs. -/
theorem to_usd_usd_identity_and_division_witness :
    to_usd 5 "EUR" [("EUR", 2)] = .ok (5 / 2) :=
  (to_usd_usd_identity_and_division 5 [("EUR", 2)]).2 "EUR" 2 (by decide) rfl

/-- Claim C2: `to_usd` fails with `RateMissing(c)` exactly when `c` is not USD
and absent from the rate map (and that is its only error); in
`compute_show_rows` and `compute_history_rows` such a failure aborts the whole
computation — success of the whole requires every consulted conversion to have
succeeded, and an error result carries no rows at all. -/
theorem to_usd_rate_missing_iff_and_aborts :
    (∀ (v : Rat) (c : String) (R : List (String × Rat)),
      (to_usd v c R = .error (NwError.RateMissing c) ↔
        c ≠ "USD" ∧ rates_get R c = none) ∧
      (∀ e, to_usd v c R = .error e → e = NwError.RateMissing c)) ∧
    (∀ snap port category_filter T rows,
      compute_show_rows snap port category_filter = .ok (T, rows) →
      ∀ e ∈ snap.entries, ∀ a, asset_lookup port.assets e.asset_id = some a →
        category_passes category_filter a = true →
        ∃ u, to_usd e.value a.currency snap.rates = .ok u) ∧
    (∀ snaps port rows, compute_history_rows snaps port = .ok rows →
      ∀ s ∈ snaps, ∃ t, snapshot_total_usd s port = .ok t) := by
  refine ⟨?_, ?_, ?_⟩
  · intro v c R
    constructor
    · constructor
      · intro h
        by_cases hc : c = "USD"
        · simp [to_usd, hc] at h
        · refine ⟨hc, ?_⟩
          rcases hr : rates_get R c with _ | r
          · rfl
          · simp [to_usd, hc, hr] at h
      · rintro ⟨hc, hr⟩
        simp [to_usd, hc, hr]
    · intro e h
      by_cases hc : c = "USD"
      · simp [to_usd, hc] at h
      · rcases hr : rates_get R c with _ | r
        · simp [to_usd, hc, hr] at h
          exact h.symm
        · simp [to_usd, hc, hr] at h
  · intro snap port category_filter T rows h
    exact show_go_ok_converts port.assets snap.rates category_filter
      snap.entries 0 [] (T, rows) h
  · intro snaps port rows h
    exact history_go_ok_totals port snaps none [] rows h

/-- Witness for C2 at concrete inputs. -/
theorem to_usd_rate_missing_iff_and_aborts_witness :
    to_usd 3 "EUR" ([] : List (String × Rat)) =
      .error (NwError.RateMissing "EUR") :=
  ((to_usd_rate_missing_iff_and_aborts.1 3 "EUR" []).1).mpr ⟨by decide, rfl⟩

/-- Claim C10: for a non-USD currency present in the rates map, `to_usd`
performs no validation of the stored rate: any rate, including zero or a
negative one, is accepted and `Ok(value / rate)` returned rather than an
error; with a zero rate the result is still `Ok` (never an error), while
under IEEE-754 semantics the quotient of a finite value by zero is non-finite
(`div_result_is_finite`), even though the data model declares rates to be
positive. -/
theorem to_usd_no_rate_validation (v : Rat) (c : String)
    (R : List (String × Rat)) (hc : c ≠ "USD") :
    (∀ r, rates_get R c = some r → to_usd v c R = .ok (v / r)) ∧
    (rates_get R c = some 0 →
      to_usd v c R = .ok (v / 0) ∧ ∀ e, to_usd v c R ≠ .error e) ∧
    div_result_is_finite v 0 = false := by
  refine ⟨?_, ?_, by simp [div_result_is_finite]⟩
  · intro r hr
    simp [to_usd, hc, hr]
  · intro h0
    refine ⟨by simp [to_usd, hc, h0], ?_⟩
    intro e he
    simp [to_usd, hc, h0] at he

/-- Witness for C10 at concrete inputs: a zero rate stored for EUR. -/
theorem to_usd_no_rate_validation_witness :
    to_usd 7 "EUR" [("EUR", 0)] = .ok (7 / 0) ∧
    ∀ e, to_usd 7 "EUR" [("EUR", 0)] ≠ .error e :=
  (to_usd_no_rate_validation 7 "EUR" [("EUR", 0)] (by decide)).2.1 rfl

/-- Claim C3: on success `compute_show_rows` emits, in entry order, exactly
one row per qualifying entry (the asset id resolves and the category equals
the filter when one is set); entries with unresolved asset ids are skipped
silently and contribute nothing; and the grand total is the sum of the
emitted rows' USD values alone, so filtering changes the total. -/
theorem compute_show_rows_rows_and_total (snap : Snapshot) (port : Portfolio)
    (category_filter : Option String) (T : Rat) (rows : List ShowRow)
    (h : compute_show_rows snap port category_filter = .ok (T, rows)) :
    rows = snap.entries.filterMap
      (row_of_entry port.assets snap.rates category_filter) ∧
    (∀ e ∈ snap.entries, ∀ a, asset_lookup port.assets e.asset_id = some a →
      category_passes category_filter a = true →
      (row_of_entry port.assets snap.rates category_filter e).isSome) ∧
    (∀ e, asset_lookup port.assets e.asset_id = none →
      row_of_entry port.assets snap.rates category_filter e = none) ∧
    T = (rows.map ShowRow.usd_value).sum := by
  have hr := show_go_ok_eq port.assets snap.rates category_filter
    snap.entries 0 [] T rows h
  refine ⟨by simpa using hr.1, ?_, ?_, ?_⟩
  · intro e he a hla hpa
    rcases show_go_ok_converts port.assets snap.rates category_filter
      snap.entries 0 [] (T, rows) h e he a hla hpa with ⟨u, hu⟩
    simp [row_of_entry, hla, hpa, hu]
  · intro e hla
    simp [row_of_entry, hla]
  · rw [hr.2, hr.1]
    simp

/-- Witness for C3 at concrete inputs: one dangling entry skipped, one USD
entry emitted. -/
theorem compute_show_rows_rows_and_total_witness :
    [{ asset_name := "VTI", currency := "USD", native_value := 12500,
       usd_value := 12500, category := "etf" }] =
      ({ date := "2025-01-01", rates := [],
         entries := [{ asset_id := "ghost", value := 100 },
                     { asset_id := "vti", value := 12500 }] } :
        Snapshot).entries.filterMap
        (row_of_entry
          ({ assets := [{ id := "vti", name := "VTI", category := "etf",
                          currency := "USD" }], snapshots := [] } :
            Portfolio).assets
          ({ date := "2025-01-01", rates := [],
             entries := [{ asset_id := "ghost", value := 100 },
                         { asset_id := "vti", value := 12500 }] } :
            Snapshot).rates none) ∧
    (∀ e ∈ ({ date := "2025-01-01", rates := [],
              entries := [{ asset_id := "ghost", value := 100 },
                          { asset_id := "vti", value := 12500 }] } :
            Snapshot).entries,
      ∀ a, asset_lookup
          ({ assets := [{ id := "vti", name := "VTI", category := "etf",
                          currency := "USD" }], snapshots := [] } :
            Portfolio).assets e.asset_id = some a →
        category_passes none a = true →
        (row_of_entry
          ({ assets := [{ id := "vti", name := "VTI", category := "etf",
                          currency := "USD" }], snapshots := [] } :
            Portfolio).assets
          ({ date := "2025-01-01", rates := [],
             entries := [{ asset_id := "ghost", value := 100 },
                         { asset_id := "vti", value := 12500 }] } :
            Snapshot).rates none e).isSome) ∧
    (∀ e, asset_lookup
        ({ assets := [{ id := "vti", name := "VTI", category := "etf",
                        currency := "USD" }], snapshots := [] } :
          Portfolio).assets e.asset_id = none →
      row_of_entry
        ({ assets := [{ id := "vti", name := "VTI", category := "etf",
                        currency := "USD" }], snapshots := [] } :
          Portfolio).assets
        ({ date := "2025-01-01", rates := [],
           entries := [{ asset_id := "ghost", value := 100 },
                       { asset_id := "vti", value := 12500 }] } :
          Snapshot).rates none e = none) ∧
    (12500 : Rat) =
      (([{ asset_name := "VTI", currency := "USD", native_value := 12500,
           usd_value := 12500, category := "etf" }] :
        List ShowRow).map ShowRow.usd_value).sum :=
  compute_show_rows_rows_and_total
    { date := "2025-01-01", rates := [],
      entries := [{ asset_id := "ghost", value := 100 },
                  { asset_id := "vti", value := 12500 }] }
    { assets := [{ id := "vti", name := "VTI", category := "etf",
                   currency := "USD" }], snapshots := [] }
    none 12500
    [{ asset_name := "VTI", currency := "USD", native_value := 12500,
       usd_value := 12500, category := "etf" }]
    (by norm_num +decide [compute_show_rows, show_go, asset_lookup, to_usd,
      category_passes, rates_get])

/-- Claim C6: on success the history rows pair off as claimed — the first row
has absent change fields, every later row's `change_usd` is its total minus
its predecessor's total, and `change_pct` is zero when the previous total is
zero and `(change / prev) * 100` otherwise; `compute_change` satisfies the
stated closed form. -/
theorem compute_history_rows_change_links (snaps : List Snapshot)
    (port : Portfolio) (rows : List HistoryRow)
    (h : compute_history_rows snaps port = .ok rows) :
    rows.length = snaps.length ∧ history_rows_linked none rows ∧
    ∀ p c, compute_change p c =
      (c - p, if p = 0 then 0 else ((c - p) / p) * 100) := by
  rcases history_go_ok_linked port snaps none [] rows h with
    ⟨tail, htail, hlen, hlink⟩
  simp only [List.nil_append] at htail
  subst htail
  exact ⟨hlen, hlink, fun p c => rfl⟩

/-- Witness for C6 at concrete inputs: two empty snapshots over the empty
portfolio. -/
theorem compute_history_rows_change_links_witness :
    ([{ date := "2025-01-01", total_usd := 0, change_usd := none,
        change_pct := none },
      { date := "2025-01-02", total_usd := 0, change_usd := some 0,
        change_pct := some 0 }] : List HistoryRow).length =
      ([{ date := "2025-01-01", rates := [], entries := [] },
        { date := "2025-01-02", rates := [], entries := [] }] :
        List Snapshot).length ∧
    history_rows_linked none
      [{ date := "2025-01-01", total_usd := 0, change_usd := none,
         change_pct := none },
       { date := "2025-01-02", total_usd := 0, change_usd := some 0,
         change_pct := some 0 }] ∧
    (∀ p c, compute_change p c =
      (c - p, if p = 0 then 0 else ((c - p) / p) * 100)) :=
  compute_history_rows_change_links
    [{ date := "2025-01-01", rates := [], entries := [] },
     { date := "2025-01-02", rates := [], entries := [] }]
    { assets := [], snapshots := [] }
    [{ date := "2025-01-01", total_usd := 0, change_usd := none,
       change_pct := none },
     { date := "2025-01-02", total_usd := 0, change_usd := some 0,
       change_pct := some 0 }]
    (by norm_num +decide [compute_history_rows, history_go, snapshot_total_usd,
      compute_show_rows, show_go, compute_change])

/-- Summing mapped percentages factors through the sum of the raw totals. -/
theorem sum_map_ratio (l : List (String × Rat)) (g : Rat) :
    (l.map (fun p => p.2 / g * 100)).sum = (l.map Prod.snd).sum / g * 100 := by
  induction l with
  | nil => simp
  | cons x xs ih =>
    rw [List.map_cons, List.map_cons, List.sum_cons, List.sum_cons, ih,
      add_div, add_mul]

/-- Claim C7: `compute_allocation` is empty on an empty totals map or a zero
grand total; otherwise it holds exactly one pair per category with percentage
`total / grand_total * 100`, is sorted non-increasing by percentage, and when
the category totals sum to the grand total the percentages sum to exactly 100
(exact equality, hence within any floating tolerance). -/
theorem compute_allocation_empty_sorted_sums (category_totals : List (String × Rat))
    (grand_total : Rat) :
    compute_allocation [] grand_total = [] ∧
    compute_allocation category_totals 0 = [] ∧
    (grand_total ≠ 0 →
      (compute_allocation category_totals grand_total).Perm
        (category_totals.map (fun p => (p.1, p.2 / grand_total * 100))) ∧
      (compute_allocation category_totals grand_total).Pairwise
        (fun a b => b.2 ≤ a.2) ∧
      ((category_totals.map Prod.snd).sum = grand_total →
        ((compute_allocation category_totals grand_total).map Prod.snd).sum
          = 100)) := by
  refine ⟨?_, by simp [compute_allocation], ?_⟩
  · by_cases hg : grand_total = 0 <;> simp [compute_allocation, hg]
  · intro hg
    have hperm :=
      List.mergeSort_perm
        (category_totals.map (fun p => (p.1, p.2 / grand_total * 100)))
        (fun a b => decide (b.2 ≤ a.2))
    have hca : compute_allocation category_totals grand_total =
        (category_totals.map (fun p => (p.1, p.2 / grand_total * 100))).mergeSort
          (fun a b => decide (b.2 ≤ a.2)) := by
      simp [compute_allocation, hg]
    refine ⟨?_, ?_, ?_⟩
    · rw [hca]
      exact hperm
    · have htrans : ∀ (a b c : String × Rat),
          (fun x y : String × Rat => decide (y.2 ≤ x.2)) a b = true →
          (fun x y : String × Rat => decide (y.2 ≤ x.2)) b c = true →
          (fun x y : String × Rat => decide (y.2 ≤ x.2)) a c = true := by
        intro a b c hab hbc
        simp only [decide_eq_true_eq] at hab hbc ⊢
        exact le_trans hbc hab
      have htotal : ∀ (a b : String × Rat),
          ((fun x y : String × Rat => decide (y.2 ≤ x.2)) a b ||
           (fun x y : String × Rat => decide (y.2 ≤ x.2)) b a) = true := by
        intro a b
        simp only [Bool.or_eq_true, decide_eq_true_eq]
        exact le_total b.2 a.2
      have hs := List.sorted_mergeSort htrans htotal
        (category_totals.map (fun p => (p.1, p.2 / grand_total * 100)))
      rw [hca]
      refine hs.imp ?_
      intro a b hab
      simpa using hab
    · intro hsum
      have hsnd : ((compute_allocation category_totals grand_total).map
            Prod.snd).sum
          = ((category_totals.map
              (fun p => (p.1, p.2 / grand_total * 100))).map Prod.snd).sum := by
        refine List.Perm.sum_eq (List.Perm.map Prod.snd ?_)
        rw [hca]
        exact hperm
      rw [hsnd, List.map_map]
      have hcomp : (Prod.snd ∘ fun p : String × Rat =>
          (p.1, p.2 / grand_total * 100)) =
          fun p : String × Rat => p.2 / grand_total * 100 := rfl
      rw [hcomp, sum_map_ratio, hsum, div_self hg, one_mul]

/-- Witness for C7 at concrete inputs. -/
theorem compute_allocation_empty_sorted_sums_witness :
    (compute_allocation [("etf", 3), ("bank", 1)] 4).Perm
      ([("etf", (3:Rat)), ("bank", 1)].map (fun p => (p.1, p.2 / 4 * 100))) ∧
    (compute_allocation [("etf", 3), ("bank", 1)] 4).Pairwise
      (fun a b => b.2 ≤ a.2) ∧
    ((compute_allocation [("etf", 3), ("bank", 1)] 4).map Prod.snd).sum = 100 := by
  have h := (compute_allocation_empty_sorted_sums
    [("etf", 3), ("bank", 1)] 4).2.2 (by norm_num)
  exact ⟨h.1, h.2.1, h.2.2 (by norm_num)⟩

/-- Claim C4: `filter_by_range` with `All` returns every snapshot unchanged
for any anchor string, including unparseable ones; for any other range an
anchor that does not parse as a calendar date returns all snapshots; and with
a parsed anchor exactly the snapshots whose date string is byte-wise
lexicographically ≥ the formatted cutoff are retained (inclusive boundary),
always preserving the original relative order (sublist). -/
theorem filter_by_range_all_fallback_cutoff (snapshots : List Snapshot)
    (today : String) :
    filter_by_range snapshots HistoryRange.All today = snapshots ∧
    (∀ range, parse_date today = none →
      filter_by_range snapshots range today = snapshots) ∧
    (∀ range d, range ≠ HistoryRange.All → parse_date today = some d →
      filter_by_range snapshots range today =
        snapshots.filter
          (fun s => str_le (format_date (range_cutoff range d)) s.date)) ∧
    (∀ range, (filter_by_range snapshots range today).Sublist snapshots) := by
  refine ⟨by simp [filter_by_range], ?_, ?_, ?_⟩
  · intro range hp
    by_cases hr : range = HistoryRange.All
    · simp [filter_by_range, hr]
    · simp [filter_by_range, hr, hp]
  · intro range d hr hp
    simp [filter_by_range, hr, hp]
  · intro range
    by_cases hr : range = HistoryRange.All
    · simp [filter_by_range, hr]
    · rcases hp : parse_date today with _ | d
      · simp [filter_by_range, hr, hp]
      · have heq : filter_by_range snapshots range today =
            snapshots.filter
              (fun s => str_le (format_date (range_cutoff range d)) s.date) := by
          simp [filter_by_range, hr, hp]
        rw [heq]
        exact List.filter_sublist snapshots

/-- Witness for C4 at concrete inputs: a one-year window anchored at
2025-02-28 keeps exactly the dates at or after the 2024-02-28 cutoff. -/
theorem filter_by_range_all_fallback_cutoff_witness :
    filter_by_range
        [{ date := "2024-02-27", rates := [], entries := [] },
         { date := "2024-02-28", rates := [], entries := [] }]
        HistoryRange.OneYear "2025-02-28" =
      ([{ date := "2024-02-27", rates := [], entries := [] },
        { date := "2024-02-28", rates := [], entries := [] }] :
        List Snapshot).filter
        (fun s => str_le
          (format_date (range_cutoff HistoryRange.OneYear
            { year := 2025, month := 2, day := 28 })) s.date) :=
  ((filter_by_range_all_fallback_cutoff
      [{ date := "2024-02-27", rates := [], entries := [] },
       { date := "2024-02-28", rates := [], entries := [] }]
      "2025-02-28").2.2.1 HistoryRange.OneYear
    { year := 2025, month := 2, day := 28 } (by decide) (by decide))

/-- Every month length in the table is at least one day. -/
theorem days_in_month_pos (year : Int) (month : Nat) :
    1 ≤ days_in_month year month := by
  unfold days_in_month
  split <;> first
    | omega
    | (split <;> omega)

/-- Validity of a date triple unfolds to the component bounds. -/
theorem date_valid_iff (dt : Date) :
    date_valid dt = true ↔
      1 ≤ dt.month ∧ dt.month ≤ 12 ∧ 1 ≤ dt.day ∧
        dt.day ≤ days_in_month dt.year dt.month := by
  by_cases hc : 1 ≤ dt.month ∧ dt.month ≤ 12 ∧ 1 ≤ dt.day ∧
      dt.day ≤ days_in_month dt.year dt.month
  · simp [date_valid, from_ymd_opt, hc]
  · simp [date_valid, from_ymd_opt, hc]

/-- The month-normalization loop preserves `12 * year + month` and lands the
month in `1..12` whenever it starts at most `12`. -/
theorem norm_ym_spec (y m : Int) :
    m ≤ 12 →
    12 * (norm_ym y m).1 + (norm_ym y m).2 = 12 * y + m ∧
    1 ≤ (norm_ym y m).2 ∧ (norm_ym y m).2 ≤ 12 := by
  induction y, m using norm_ym.induct
  next y m hm ih =>
    intro h12
    rw [norm_ym, if_pos hm]
    rcases ih (by omega) with ⟨h1, h2, h3⟩
    exact ⟨by omega, h2, h3⟩
  next y m hm =>
    intro h12
    rw [norm_ym, if_neg hm]
    exact ⟨rfl, by omega, h12⟩

/-- Closed form of `subtract_months` on valid component bounds: the result is
the normalized year/month with the day clamped, and the `expect` fallback is
never taken. -/
theorem subtract_months_eq (y : Int) (m d N : Nat)
    (hm1 : 1 ≤ m) (hm2 : m ≤ 12) (hd : 1 ≤ d) :
    ∃ (y2 : Int) (m2 : Nat),
      12 * y2 + (m2 : Int) = 12 * y + (m : Int) - (N : Int) ∧
      1 ≤ m2 ∧ m2 ≤ 12 ∧
      subtract_months ⟨y, m, d⟩ N =
        ⟨y2, m2, min d (days_in_month y2 m2)⟩ := by
  rcases norm_ym_spec y ((m : Int) - (N : Int)) (by omega) with ⟨h1, h2, h3⟩
  refine ⟨(norm_ym y ((m : Int) - (N : Int))).1,
    (norm_ym y ((m : Int) - (N : Int))).2.toNat, by omega, by omega, by omega, ?_⟩
  have hcond : 1 ≤ (norm_ym y ((m : Int) - (N : Int))).2.toNat ∧
      (norm_ym y ((m : Int) - (N : Int))).2.toNat ≤ 12 ∧
      1 ≤ min d (days_in_month (norm_ym y ((m : Int) - (N : Int))).1
        (norm_ym y ((m : Int) - (N : Int))).2.toNat) ∧
      min d (days_in_month (norm_ym y ((m : Int) - (N : Int))).1
        (norm_ym y ((m : Int) - (N : Int))).2.toNat) ≤
        days_in_month (norm_ym y ((m : Int) - (N : Int))).1
          (norm_ym y ((m : Int) - (N : Int))).2.toNat := by
    refine ⟨by omega, by omega, ?_, Nat.min_le_right _ _⟩
    exact Nat.le_min.mpr ⟨hd, days_in_month_pos _ _⟩
  simp only [subtract_months, from_ymd_opt, if_pos hcond]

/-- Closed form of `subtract_years` on valid component bounds. -/
theorem subtract_years_eq (y : Int) (m d : Nat) (Y : Int)
    (hm1 : 1 ≤ m) (hm2 : m ≤ 12) (hd : 1 ≤ d) :
    subtract_years ⟨y, m, d⟩ Y = ⟨y - Y, m, min d (days_in_month (y - Y) m)⟩ := by
  have hcond : 1 ≤ m ∧ m ≤ 12 ∧
      1 ≤ min d (days_in_month (y - Y) m) ∧
      min d (days_in_month (y - Y) m) ≤ days_in_month (y - Y) m := by
    refine ⟨hm1, hm2, ?_, Nat.min_le_right _ _⟩
    exact Nat.le_min.mpr ⟨hd, days_in_month_pos _ _⟩
  simp only [subtract_years, from_ymd_opt, if_pos hcond]

/-- Claim C5: subtracting `N` months from a valid date decrements the month
counter by `N`, rolling the year back once per multiple of 12 crossed
(`12 * year + month` drops by exactly `N`), and clamps the day to the
destination month's length; subtracting years keeps the month and clamps the
day against the destination year; February's length follows the Gregorian
rule `year % 400 == 0 OR (year % 4 == 0 AND year % 100 != 0)`; in particular
one month before 2025-03-31 is 2025-02-28, and the results are always valid
dates. -/
theorem subtract_months_years_spec (y : Int) (m d N : Nat) (Y : Int)
    (hv : date_valid ⟨y, m, d⟩ = true) :
    (∃ (y2 : Int) (m2 : Nat),
      12 * y2 + (m2 : Int) = 12 * y + (m : Int) - (N : Int) ∧
      1 ≤ m2 ∧ m2 ≤ 12 ∧
      subtract_months ⟨y, m, d⟩ N = ⟨y2, m2, min d (days_in_month y2 m2)⟩ ∧
      date_valid (subtract_months ⟨y, m, d⟩ N) = true) ∧
    (subtract_years ⟨y, m, d⟩ Y =
        ⟨y - Y, m, min d (days_in_month (y - Y) m)⟩ ∧
      date_valid (subtract_years ⟨y, m, d⟩ Y) = true) ∧
    (∀ z : Int, days_in_month z 2 =
      if z % 400 = 0 ∨ (z % 4 = 0 ∧ z % 100 ≠ 0) then 29 else 28) ∧
    subtract_months ⟨2025, 3, 31⟩ 1 = ⟨2025, 2, 28⟩ := by
  rcases (date_valid_iff ⟨y, m, d⟩).mp hv with ⟨hm1, hm2, hd, _⟩
  refine ⟨?_, ?_, ?_, ?_⟩
  · rcases subtract_months_eq y m d N hm1 hm2 hd with ⟨y2, m2, ha, hb, hc, he⟩
    refine ⟨y2, m2, ha, hb, hc, he, ?_⟩
    rw [he, date_valid_iff]
    exact ⟨hb, hc, Nat.le_min.mpr ⟨hd, days_in_month_pos _ _⟩,
      Nat.min_le_right _ _⟩
  · have he := subtract_years_eq y m d Y hm1 hm2 hd
    refine ⟨he, ?_⟩
    rw [he, date_valid_iff]
    exact ⟨hm1, hm2, Nat.le_min.mpr ⟨hd, days_in_month_pos _ _⟩,
      Nat.min_le_right _ _⟩
  · intro z
    by_cases hz : z % 400 = 0 ∨ (z % 4 = 0 ∧ z % 100 ≠ 0)
    · simp [days_in_month, is_leap, hz]
    · simp [days_in_month, is_leap, hz]
  · simp [subtract_months, norm_ym, from_ymd_opt, days_in_month, is_leap]

/-- Witness for C5 at the concrete date 2025-03-31 with one month and one
year subtracted. -/
theorem subtract_months_years_spec_witness :
    (∃ (y2 : Int) (m2 : Nat),
      12 * y2 + (m2 : Int) = 12 * 2025 + ((3 : Nat) : Int) - ((1 : Nat) : Int) ∧
      1 ≤ m2 ∧ m2 ≤ 12 ∧
      subtract_months ⟨2025, 3, 31⟩ 1 = ⟨y2, m2, min 31 (days_in_month y2 m2)⟩ ∧
      date_valid (subtract_months ⟨2025, 3, 31⟩ 1) = true) ∧
    (subtract_years ⟨2025, 3, 31⟩ 1 =
        ⟨2025 - 1, 3, min 31 (days_in_month (2025 - 1) 3)⟩ ∧
      date_valid (subtract_years ⟨2025, 3, 31⟩ 1) = true) ∧
    (∀ z : Int, days_in_month z 2 =
      if z % 400 = 0 ∨ (z % 4 = 0 ∧ z % 100 ≠ 0) then 29 else 28) ∧
    subtract_months ⟨2025, 3, 31⟩ 1 = ⟨2025, 2, 28⟩ :=
  subtract_months_years_spec 2025 3 31 1 1 (by decide)

/-- Transitivity of the byte-wise lexicographic order. -/
theorem chars_le_trans :
    ∀ a b c, chars_le a b = true → chars_le b c = true →
      chars_le a c = true := by
  intro a
  induction a with
  | nil =>
    intro b c _ _
    rfl
  | cons x xs ih =>
    intro b c hab hbc
    cases b with
    | nil => simp [chars_le] at hab
    | cons y ys =>
      cases c with
      | nil => simp [chars_le] at hbc
      | cons z zs =>
        simp only [chars_le] at hab hbc ⊢
        split_ifs at hab hbc ⊢ <;>
          first
            | rfl
            | omega
            | exact ih ys zs hab hbc

/-- Totality of the byte-wise lexicographic order. -/
theorem chars_le_total :
    ∀ a b, (chars_le a b || chars_le b a) = true := by
  intro a
  induction a with
  | nil =>
    intro b
    simp [chars_le]
  | cons x xs ih =>
    intro b
    cases b with
    | nil => simp [chars_le]
    | cons y ys =>
      simp only [chars_le]
      rcases Nat.lt_trichotomy x.toNat y.toNat with h | h | h
      · simp [h]
      · simp only [h, Nat.lt_irrefl, if_false]
        exact ih ys
      · simp [h, Nat.lt_asymm h]

/-- The snapshot sort comparator is transitive. -/
theorem snap_le_trans : ∀ (a b c : Snapshot),
    (fun a b : Snapshot => str_le a.date b.date) a b = true →
    (fun a b : Snapshot => str_le a.date b.date) b c = true →
    (fun a b : Snapshot => str_le a.date b.date) a c = true := by
  intro a b c hab hbc
  exact chars_le_trans _ _ _ hab hbc

/-- The snapshot sort comparator is total. -/
theorem snap_le_total : ∀ (a b : Snapshot),
    ((fun a b : Snapshot => str_le a.date b.date) a b ||
     (fun a b : Snapshot => str_le a.date b.date) b a) = true := by
  intro a b
  exact chars_le_total a.date.data b.date.data

/-- The sorted-snapshot list is ascending under the byte-wise date order. -/
theorem sort_snapshots_sorted (l : List Snapshot) :
    (sort_snapshots l).Pairwise
      (fun a b => str_le a.date b.date = true) :=
  List.sorted_mergeSort snap_le_trans snap_le_total l

/-- Sorting the snapshots permutes them. -/
theorem sort_snapshots_perm (l : List Snapshot) :
    (sort_snapshots l).Perm l :=
  List.mergeSort_perm l _

/-- The temporary sibling path never collides with the final path. -/
theorem tmp_path_ne (path : String) : tmp_path path ≠ path := by
  intro h
  have hlen := congrArg String.length h
  rw [tmp_path, String.length_append] at hlen
  have h4 : ".tmp".length = 4 := rfl
  omega

/-- Reading back the path just written yields the written document. -/
theorem fs_read_write_self (fs : FileSystem) (path : String) (doc : Portfolio) :
    fs_read (fs_write fs path doc) path = some doc := by
  simp [fs_read, fs_write, List.lookup]

/-- The rename step of `save_portfolio` always succeeds (the temp file was
just written), leaving the sorted document at the final path. -/
theorem save_portfolio_fst (config_dir : String) (fs : FileSystem)
    (p : Portfolio) :
    (save_portfolio config_dir fs p).1 =
      fs_write (fs_erase (save_pre_rename config_dir fs p)
          (tmp_path (portfolio_path config_dir)))
        (portfolio_path config_dir)
        { p with snapshots := sort_snapshots p.snapshots } := by
  have h1 : fs_read (save_pre_rename config_dir fs p)
      (tmp_path (portfolio_path config_dir)) =
      some { p with snapshots := sort_snapshots p.snapshots } :=
    fs_read_write_self fs _ _
  simp only [save_portfolio, fs_rename, h1, Option.getD_some]

/-- Claim C8: `save_portfolio` re-sorts the snapshots ascending by date
before writing (the saved document and the mutated portfolio both carry the
sorted, permuted snapshot list), so after every successful save — and hence
after a save-then-load round-trip — the snapshots are in ascending byte-wise
lexicographic date order. -/
theorem save_portfolio_sorts_and_roundtrips (config_dir : String)
    (fs : FileSystem) (p : Portfolio) :
    (save_portfolio config_dir fs p).2.snapshots = sort_snapshots p.snapshots ∧
    (sort_snapshots p.snapshots).Perm p.snapshots ∧
    fs_read (save_portfolio config_dir fs p).1 (portfolio_path config_dir) =
      some { p with snapshots := sort_snapshots p.snapshots } ∧
    load_portfolio config_dir (save_portfolio config_dir fs p).1 =
      { p with snapshots := sort_snapshots p.snapshots } ∧
    (load_portfolio config_dir
        (save_portfolio config_dir fs p).1).snapshots.Pairwise
      (fun a b => str_le a.date b.date = true) := by
  have hread : fs_read (save_portfolio config_dir fs p).1
      (portfolio_path config_dir) =
      some { p with snapshots := sort_snapshots p.snapshots } := by
    rw [save_portfolio_fst]
    exact fs_read_write_self _ _ _
  have hload : load_portfolio config_dir (save_portfolio config_dir fs p).1 =
      { p with snapshots := sort_snapshots p.snapshots } := by
    simp [load_portfolio, hread]
  refine ⟨rfl, sort_snapshots_perm p.snapshots, hread, hload, ?_⟩
  rw [hload]
  exact sort_snapshots_sorted p.snapshots

/-- Claim C9: `save_portfolio` writes the serialized document to the
temporary sibling path and only then renames it over the final path: in the
intermediate state after the temp-file write (directory creation touches no
file contents) the content at the final path is exactly what it was before
the save, so a failure or crash at any step before the rename leaves the
final path unchanged and never observable in a partially-written state; the
final state arises from that intermediate state purely by the rename. -/
theorem save_portfolio_final_path_untouched_before_rename (config_dir : String)
    (fs : FileSystem) (p : Portfolio) :
    fs_read (save_pre_rename config_dir fs p) (portfolio_path config_dir) =
      fs_read fs (portfolio_path config_dir) ∧
    tmp_path (portfolio_path config_dir) ≠ portfolio_path config_dir ∧
    (save_portfolio config_dir fs p).1 =
      (fs_rename (save_pre_rename config_dir fs p)
          (tmp_path (portfolio_path config_dir))
          (portfolio_path config_dir)).getD
        (save_pre_rename config_dir fs p) := by
  refine ⟨?_, tmp_path_ne _, rfl⟩
  have hne : (portfolio_path config_dir ==
      tmp_path (portfolio_path config_dir)) = false :=
    beq_eq_false_iff_ne.mpr (tmp_path_ne (portfolio_path config_dir)).symm
  simp [save_pre_rename, fs_read, fs_write, List.lookup, hne]

end Nw
